import Mathlib

/-!
A shallow embedding of `fetch_events.py` ("THE DEBT OF WAR" feed ingestion):
severity classification, the ordered weapon-cost pattern table, event
identity (MD5 of title prefix + date), timestamp parsing, the
merge / retention / cap / breaking pipeline and the daily-cost summary,
together with theorems checking the specification's claims against it.

Python strings are sequences of code points.  All keywords and patterns in
the source are ASCII, so `Char.toLower` agrees with `str.lower` on them,
and Python string comparison (used by the source on ISO-8601 timestamp
strings) is lexicographic comparison of code points, modelled by `strLe`.
-/

namespace DebtOfWar

/-! ### Strings -/

/-- `str.lower` (ASCII range). -/
def lowerStr (s : String) : String := String.mk (s.data.map Char.toLower)

/-- Python `a <= b` on strings: lexicographic comparison of code points. -/
def listLe : List Char → List Char → Bool
  | [], _ => true
  | _ :: _, [] => false
  | a :: as, b :: bs =>
    if a.toNat < b.toNat then true
    else if a.toNat = b.toNat then listLe as bs
    else false

def strLe (a b : String) : Bool := listLe a.data b.data

/-- Python `pat in s` (substring containment). -/
def isSubstr (pat : List Char) : List Char → Bool
  | [] => pat.isPrefixOf []
  | c :: tl => pat.isPrefixOf (c :: tl) || isSubstr pat tl

/-- Python `w in t` on strings. -/
def strIn (w t : String) : Bool := isSubstr w.data t.data

/-! ### Severity classification (`classify`, source lines 59-70) -/

/-- `HIGH_WORDS` (source line 59; a Python set literal, in source order). -/
def HIGH_WORDS : List String :=
  ["killed", "dead", "casualties", "massacre", "nuclear", "invasion",
   "airstrike", "missile strike", "bombing", "dozens", "hundreds"]

/-- `MEDIUM_WORDS` (source line 61). -/
def MEDIUM_WORDS : List String :=
  ["attack", "attacked", "clash", "shelling", "drone", "wounded", "offensive"]

/-- `classify` (source lines 64-70): count high / medium keyword hits in the
lower-cased text, answer by the first non-zero count in priority order. -/
def classify (text : String) : String :=
  let t := lowerStr text
  let h := HIGH_WORDS.countP (fun w => strIn w t)
  let m := MEDIUM_WORDS.countP (fun w => strIn w t)
  if h ≥ 1 then "high" else if m ≥ 1 then "medium" else "low"

/-! ### Cost estimation (`WEAPON_COSTS`, `estimate_cost`, source lines 38-77)

The table's regexes use three constructs: literal text, alternation `|`,
and a bounded gap `.{0,n}` (any character except newline, up to `n` times).
`re.IGNORECASE` is modelled by lower-casing both the searched text and the
pattern literals. -/

inductive Pat where
  | lit : String → Pat
  | alt : Pat → Pat → Pat
  /-- `gap w n p` is the regex `w.\x7b0,n\x7dp`. -/
  | gap : String → Nat → Pat → Pat
deriving DecidableEq, Repr

/-- Skip 0 to `k` non-newline characters, then require `mh`. -/
def gapSkip (mh : List Char → Bool) : Nat → List Char → Bool
  | 0, t => mh t
  | k + 1, t =>
    mh t ||
      match t with
      | [] => false
      | c :: tl => !(c == '\n') && gapSkip mh k tl

/-- Match a pattern at the start of `t` (case-insensitively). -/
def matchHere : Pat → List Char → Bool
  | .lit w, t => (lowerStr w).data.isPrefixOf t
  | .alt p q, t => matchHere p t || matchHere q t
  | .gap w k p, t =>
    (lowerStr w).data.isPrefixOf t &&
      gapSkip (matchHere p) k (t.drop (lowerStr w).data.length)

/-- `re.search`: match the pattern anywhere in `t`. -/
def patSearch (p : Pat) : List Char → Bool
  | [] => matchHere p []
  | c :: tl => matchHere p (c :: tl) || patSearch p tl

/-- `WEAPON_COSTS` (source lines 38-56): the ordered (pattern, cost, label)
table.  Each entry's pattern is the translation of the source regex given
in the comment. -/
def WEAPON_COSTS : List (Pat × Nat × String) :=
  [ -- nuclear|nuke
    (.alt (.lit "nuclear") (.lit "nuke"), 2000000000, "Nuclear weapon deployment"),
    -- aircraft carrier
    (.lit "aircraft carrier", 800000000, "Aircraft carrier operation/day"),
    -- B-2|B2 bomber
    (.alt (.lit "B-2") (.lit "B2 bomber"), 135000, "B-2 bomber sortie/hr"),
    -- F-35|F35
    (.alt (.lit "F-35") (.lit "F35"), 36000, "F-35 sortie/hr"),
    -- F-16|F16
    (.alt (.lit "F-16") (.lit "F16"), 22000, "F-16 sortie/hr"),
    -- tomahawk
    (.lit "tomahawk", 2000000, "Tomahawk cruise missile"),
    -- patriot.{0,20}(missile|intercept)
    (.gap "patriot" 20 (.alt (.lit "missile") (.lit "intercept")), 4000000, "Patriot interceptor"),
    -- HIMARS|himars
    (.alt (.lit "HIMARS") (.lit "himars"), 100000, "HIMARS rocket"),
    -- JDAM|jdam
    (.alt (.lit "JDAM") (.lit "jdam"), 30000, "JDAM guided bomb"),
    -- abrams|tank.{0,10}(destroy|hit)
    (.alt (.lit "abrams") (.gap "tank" 10 (.alt (.lit "destroy") (.lit "hit"))), 10000000, "Abrams tank"),
    -- drone.{0,20}(strike|attack)
    (.gap "drone" 20 (.alt (.lit "strike") (.lit "attack")), 50000, "Drone strike est."),
    -- airstrike|air strike
    (.alt (.lit "airstrike") (.lit "air strike"), 500000, "Airstrike estimated cost"),
    -- artillery|shelling|shell
    (.alt (.lit "artillery") (.alt (.lit "shelling") (.lit "shell")), 10000, "Artillery round"),
    -- missile
    (.lit "missile", 500000, "Missile (generic est.)"),
    -- bomb
    (.lit "bomb", 50000, "Bomb/munition"),
    -- explosion|blast
    (.alt (.lit "explosion") (.lit "blast"), 20000, "Explosive device")]

/-- The `for pattern, cost, label in WEAPON_COSTS` loop body of
`estimate_cost` (source lines 74-77). -/
def estimateLoop : List (Pat × Nat × String) → List Char → Nat × Option String
  | [], _ => (0, none)
  | (p, cost, label) :: rest, t =>
    if patSearch p t then (cost, some label) else estimateLoop rest t

/-- `estimate_cost` (source lines 72-77). -/
def estimate_cost (text : String) : Nat × Option String :=
  estimateLoop WEAPON_COSTS (lowerStr text).data

/-! ### MD5 (RFC 1321), as called by `hashlib.md5` in `event_id`
(source lines 79-80).  Words are `Nat`s reduced mod `2 ^ 32`. -/

/-- Truncate to a 32-bit word. -/
def w32 (n : Nat) : Nat := n % 4294967296

/-- Rotate a 32-bit word left by `c` bits. -/
def rotl32 (x c : Nat) : Nat := w32 (x * 2 ^ c + x / 2 ^ (32 - c))

def md5F (b c d : Nat) : Nat := (b &&& c) ||| ((4294967295 - b) &&& d)
def md5G (b c d : Nat) : Nat := (d &&& b) ||| ((4294967295 - d) &&& c)
def md5H (b c d : Nat) : Nat := b ^^^ c ^^^ d
def md5I (b c d : Nat) : Nat := c ^^^ (b ||| (4294967295 - d))

/-- The 64 MD5 sine-table constants. -/
def md5K : List Nat :=
  [0xd76aa478, 0xe8c7b756, 0x242070db, 0xc1bdceee,
   0xf57c0faf, 0x4787c62a, 0xa8304613, 0xfd469501,
   0x698098d8, 0x8b44f7af, 0xffff5bb1, 0x895cd7be,
   0x6b901122, 0xfd987193, 0xa679438e, 0x49b40821,
   0xf61e2562, 0xc040b340, 0x265e5a51, 0xe9b6c7aa,
   0xd62f105d, 0x02441453, 0xd8a1e681, 0xe7d3fbc8,
   0x21e1cde6, 0xc33707d6, 0xf4d50d87, 0x455a14ed,
   0xa9e3e905, 0xfcefa3f8, 0x676f02d9, 0x8d2a4c8a,
   0xfffa3942, 0x8771f681, 0x6d9d6122, 0xfde5380c,
   0xa4beea44, 0x4bdecfa9, 0xf6bb4b60, 0xbebfbc70,
   0x289b7ec6, 0xeaa127fa, 0xd4ef3085, 0x04881d05,
   0xd9d4d039, 0xe6db99e5, 0x1fa27cf8, 0xc4ac5665,
   0xf4292244, 0x432aff97, 0xab9423a7, 0xfc93a039,
   0x655b59c3, 0x8f0ccc92, 0xffeff47d, 0x85845dd1,
   0x6fa87e4f, 0xfe2ce6e0, 0xa3014314, 0x4e0811a1,
   0xf7537e82, 0xbd3af235, 0x2ad7d2bb, 0xeb86d391]

/-- The 64 per-step left-rotation amounts. -/
def md5S : List Nat :=
  [7, 12, 17, 22, 7, 12, 17, 22, 7, 12, 17, 22, 7, 12, 17, 22,
   5, 9, 14, 20, 5, 9, 14, 20, 5, 9, 14, 20, 5, 9, 14, 20,
   4, 11, 16, 23, 4, 11, 16, 23, 4, 11, 16, 23, 4, 11, 16, 23,
   6, 10, 15, 21, 6, 10, 15, 21, 6, 10, 15, 21, 6, 10, 15, 21]

/-- One of the 64 MD5 operations, on state (a, b, c, d) with message
words `M`. -/
def md5Step (M : List Nat) (st : Nat × Nat × Nat × Nat) (i : Nat) :
    Nat × Nat × Nat × Nat :=
  let a := st.1
  let b := st.2.1
  let c := st.2.2.1
  let d := st.2.2.2
  let f :=
    if i < 16 then md5F b c d
    else if i < 32 then md5G b c d
    else if i < 48 then md5H b c d
    else md5I b c d
  let g :=
    if i < 16 then i
    else if i < 32 then (5 * i + 1) % 16
    else if i < 48 then (3 * i + 5) % 16
    else (7 * i) % 16
  let f' := w32 (f + a + md5K.getD i 0 + M.getD g 0)
  (d, w32 (b + rotl32 f' (md5S.getD i 0)), b, c)

/-- Process one 16-word block. -/
def md5Block (st : Nat × Nat × Nat × Nat) (M : List Nat) :
    Nat × Nat × Nat × Nat :=
  let r := (List.range 64).foldl (md5Step M) st
  (w32 (st.1 + r.1), w32 (st.2.1 + r.2.1),
   w32 (st.2.2.1 + r.2.2.1), w32 (st.2.2.2 + r.2.2.2))

/-- MD5 padding: `0x80`, zeros to 56 mod 64, then the bit length as eight
little-endian bytes. -/
def md5Pad (msg : List Nat) : List Nat :=
  let len := msg.length
  let zeros := (56 + 64 - (len + 1) % 64) % 64
  msg ++ [128] ++ List.replicate zeros 0 ++
    (List.range 8).map (fun i => len * 8 / 256 ^ i % 256)

/-- Split into 64-byte chunks. -/
def chunks64 (l : List Nat) : List (List Nat) :=
  match l with
  | [] => []
  | c :: rest => (c :: rest.take 63) :: chunks64 (rest.drop 63)
termination_by l.length
decreasing_by simp; omega

/-- Assemble little-endian 32-bit words from bytes. -/
def leWords : List Nat → List Nat
  | b0 :: b1 :: b2 :: b3 :: rest =>
    (b0 + 256 * b1 + 65536 * b2 + 16777216 * b3) :: leWords rest
  | _ => []

def md5Init : Nat × Nat × Nat × Nat :=
  (0x67452301, 0xefcdab89, 0x98badcfe, 0x10325476)

def md5Final (msg : List Nat) : Nat × Nat × Nat × Nat :=
  ((chunks64 (md5Pad msg)).map leWords).foldl md5Block md5Init

/-- A 32-bit word as four little-endian bytes. -/
def le32 (x : Nat) : List Nat :=
  [x % 256, x / 256 % 256, x / 65536 % 256, x / 16777216 % 256]

/-- The 16-byte MD5 digest of a byte sequence. -/
def md5Bytes (msg : List Nat) : List Nat :=
  le32 (md5Final msg).1 ++ le32 (md5Final msg).2.1 ++
    le32 (md5Final msg).2.2.1 ++ le32 (md5Final msg).2.2.2

/-- The lowercase hex numeral for `n < 16` (codepoint arithmetic: digits
start at 48, letters at 97). -/
def hexChar (n : Nat) : Char :=
  if n < 10 then Char.ofNat (48 + n) else Char.ofNat (87 + n)

def hexDigits : List Char := (List.range 16).map hexChar

def hexPair (b : Nat) : List Char := [hexChar (b / 16), hexChar (b % 16)]

/-- `.hexdigest()`: the digest as lowercase hex characters. -/
def hexdigest (bytes : List Nat) : List Char := bytes.flatMap hexPair

/-- Python `str.encode()`: UTF-8 bytes of a string. -/
def utf8Char (c : Char) : List Nat :=
  let n := c.toNat
  if n < 128 then [n]
  else if n < 2048 then [192 + n / 64, 128 + n % 64]
  else if n < 65536 then [224 + n / 4096, 128 + n / 64 % 64, 128 + n % 64]
  else [240 + n / 262144, 128 + n / 4096 % 64, 128 + n / 64 % 64, 128 + n % 64]

def utf8 (s : String) : List Nat := s.data.flatMap utf8Char

/-! ### Event identity (`event_id`, source lines 79-80) -/

/-- A Python `datetime.date` (what `ts.date()` yields at source line 151). -/
structure Date where
  year : Nat
  month : Nat
  day : Nat
deriving DecidableEq, Repr

/-- Zero-pad a numeral to width `w` (Python `%0wd` for the values used). -/
def padZ (w n : Nat) : String :=
  String.mk (List.replicate (w - (toString n).length) '0') ++ toString n

/-- Python `str(date)`: ISO `YYYY-MM-DD`. -/
def dateStr (d : Date) : String :=
  padZ 4 d.year ++ "-" ++ padZ 2 d.month ++ "-" ++ padZ 2 d.day

/-- `event_id` (source lines 79-80):
`hashlib.md5((title[:50] + str(date)).encode()).hexdigest()[:10]`. -/
def event_id (title : String) (d : Date) : String :=
  String.mk ((hexdigest (md5Bytes (utf8 (title.take 50 ++ dateStr d)))).take 10)

/-! ### UTC datetimes

Every datetime in the pipeline is timezone-aware with `tzinfo=timezone.utc`
(`parse_date` forces it, `datetime.now(timezone.utc)` produces it), so the
zone is not stored.  `isoformat` renders Python's
`datetime.isoformat()` for such values: `YYYY-MM-DDTHH:MM:SS[.ffffff]+00:00`,
the fractional part present exactly when `microsecond` is non-zero. -/

structure DateTime where
  year : Nat
  month : Nat
  day : Nat
  hour : Nat
  minute : Nat
  second : Nat
  microsecond : Nat
deriving DecidableEq, Repr

def isoformat (dt : DateTime) : String :=
  padZ 4 dt.year ++ "-" ++ padZ 2 dt.month ++ "-" ++ padZ 2 dt.day ++ "T" ++
    padZ 2 dt.hour ++ ":" ++ padZ 2 dt.minute ++ ":" ++ padZ 2 dt.second ++
    (if dt.microsecond = 0 then "" else "." ++ padZ 6 dt.microsecond) ++
    "+00:00"

/-- Days since 0000-03-01 of a Gregorian civil date (valid for year ≥ 1). -/
def daysFromCivil (y m d : Nat) : Nat :=
  let y' := if m ≤ 2 then y - 1 else y
  let era := y' / 400
  let yoe := y' % 400
  let mp := if m ≤ 2 then m + 9 else m - 3
  let doy := (153 * mp + 2) / 5 + (d - 1)
  let doe := yoe * 365 + yoe / 4 - yoe / 100 + doy
  era * 146097 + doe

/-- Civil date from days since 0000-03-01. -/
def civilFromDays (z : Nat) : Nat × Nat × Nat :=
  let era := z / 146097
  let doe := z % 146097
  let yoe := (doe - doe / 1460 + doe / 36524 - doe / 146096) / 365
  let y := yoe + era * 400
  let doy := doe - (365 * yoe + yoe / 4 - yoe / 100)
  let mp := (5 * doy + 2) / 153
  let d := doy - (153 * mp + 2) / 5 + 1
  let m := if mp < 10 then mp + 3 else mp - 9
  (if m ≤ 2 then y + 1 else y, m, d)

def usPerDay : Nat := 86400000000

def toEpochMicro (dt : DateTime) : Nat :=
  daysFromCivil dt.year dt.month dt.day * usPerDay +
    dt.hour * 3600000000 + dt.minute * 60000000 +
    dt.second * 1000000 + dt.microsecond

def ofEpochMicro (n : Nat) : DateTime :=
  let c := civilFromDays (n / usPerDay)
  let r := n % usPerDay
  ⟨c.1, c.2.1, c.2.2, r / 3600000000, r / 60000000 % 60,
    r / 1000000 % 60, r % 1000000⟩

/-- `dt - timedelta(...)` with the delta in microseconds. -/
def dtSubMicro (dt : DateTime) (k : Nat) : DateTime :=
  ofEpochMicro (toEpochMicro dt - k)

/-- `(datetime.now(timezone.utc) - timedelta(hours=72)).isoformat()`
(source line 172). -/
def recentCutoff (now : DateTime) : String :=
  isoformat (dtSubMicro now 259200000000)

/-- `(datetime.now(timezone.utc) - timedelta(hours=3)).isoformat()`
(source line 176). -/
def alertCutoff (now : DateTime) : String :=
  isoformat (dtSubMicro now 10800000000)

/-- `datetime.now(timezone.utc).replace(hour=0, minute=0, second=0).isoformat()`
(source lines 185-186).  Note `microsecond` is left untouched by the
`replace` call. -/
def dayStartCut (now : DateTime) : String :=
  isoformat { now with hour := 0, minute := 0, second := 0 }

/-! ### Events and the Python dict model

An `Event` is the record built at source lines 153-164.  Prior events
loaded from `data/events.json` carry the `is_breaking` key written by the
previous run; freshly built candidates lack it until source line 178 sets
it.  The possibly-absent key is modelled as an `Option`.

Python dicts are insertion-ordered association lists with unique keys;
assigning to an existing key overwrites its value in place, assigning a
fresh key appends. -/

structure Event where
  id : String
  title : String
  source : String
  url : String
  description : String
  timestamp : String
  severity : String
  cost_usd : Nat
  cost_label : Option String
  is_new : Bool
  is_breaking : Option Bool
deriving DecidableEq, Repr

/-- The key sequence of a dict. -/
def dkeys (d : List (String × Event)) : List String := d.map Prod.fst

/-- Python `k in d` on a dict. -/
def dmem (d : List (String × Event)) (k : String) : Bool :=
  d.any (fun kv => kv.1 == k)

/-- Python `d[k]` (as an `Option`). -/
def dlookup (d : List (String × Event)) (k : String) : Option Event :=
  match d.find? (fun kv => kv.1 == k) with
  | some kv => some kv.2
  | none => none

/-- Python `d[k] = v`. -/
def dinsert (d : List (String × Event)) (k : String) (v : Event) :
    List (String × Event) :=
  if dmem d k then d.map (fun kv => if kv.1 == k then (k, v) else kv)
  else d ++ [(k, v)]

/-- The dict comprehension `(e["id"]: e for e in es)` (source lines 125
and 167): successive insertion keyed by id, last write wins. -/
def dictOfEvents (es : List Event) : List (String × Event) :=
  es.foldl (fun d e => dinsert d e.id e) []

/-- `merged = (e["id"]: e for e in new_events)` (source line 167). -/
def newDict (ne : List Event) : List (String × Event) := dictOfEvents ne

/-- `merged.update(|k: v for k, v in existing.items() if k not in merged|)`
(source line 168): every key of the comprehension is absent from `merged`,
so the update appends those entries in `existing` order. -/
def mergedDict (ne ex : List Event) : List (String × Event) :=
  newDict ne ++ (dictOfEvents ex).filter (fun kv => !dmem (newDict ne) kv.1)

/-- The sort relation of
`sorted(merged.values(), key=lambda x: x["timestamp"], reverse=True)`
(source line 169): descending timestamp. -/
def tsDesc (a b : Event) : Prop := strLe b.timestamp a.timestamp = true

instance : DecidableRel tsDesc := fun a b => by unfold tsDesc; infer_instance

/-- `all_events` after source line 169.  Python's sort and
`List.insertionSort` are both stable, and a stable sort under a total
preorder is extensionally unique, so they agree. -/
def allEventsSorted (ne ex : List Event) : List Event :=
  ((mergedDict ne ex).map Prod.snd).insertionSort tsDesc

/-- `all_events` after source line 173:
`[e for e in all_events if e["timestamp"] >= recent_cutoff][:200]`. -/
def retainedEvents (ne ex : List Event) (nowR : DateTime) : List Event :=
  ((allEventsSorted ne ex).filter
    (fun e => strLe (recentCutoff nowR) e.timestamp)).take 200

/-- The events cut off by `[:200]` at source line 173. -/
def droppedByCap (ne ex : List Event) (nowR : DateTime) : List Event :=
  ((allEventsSorted ne ex).filter
    (fun e => strLe (recentCutoff nowR) e.timestamp)).drop 200

/-- Source line 178:
`e["is_breaking"] = e["timestamp"] >= alert_cutoff and e["severity"] == "high"`. -/
def setBreaking (cut : String) (e : Event) : Event :=
  { e with is_breaking := some (strLe cut e.timestamp && (e.severity == "high")) }

/-- The final persisted collection (source lines 167-178): merge, sort
descending, retention filter, cap at 200, then stamp `is_breaking`.
`nowR` and `nowA` are the `datetime.now(timezone.utc)` calls of source
lines 172 and 176. -/
def finalEvents (ne ex : List Event) (nowR nowA : DateTime) : List Event :=
  (retainedEvents ne ex nowR).map (setBreaking (alertCutoff nowA))

/-- `today_cost` (source lines 184-186): sum of `cost_usd` over events at
or after the `replace(hour=0, minute=0, second=0)` threshold; `nowT` is
the `datetime.now(timezone.utc)` call of source line 185. -/
def today_cost (events : List Event) (nowT : DateTime) : Nat :=
  ((events.filter (fun e => strLe (dayStartCut nowT) e.timestamp)).map
    (fun e => e.cost_usd)).sum

/-- Modelled from the spec (SummaryBuilder, §4.6): `today_extra_cost` with
the threshold at 00:00 UTC of the run's calendar day, i.e. with the
microseconds zeroed as well.  Kept beside `today_cost` to compare the
stated behaviour with the implemented one. -/
def today_cost_specified (events : List Event) (nowT : DateTime) : Nat :=
  ((events.filter (fun e =>
      strLe (isoformat { nowT with hour := 0, minute := 0, second := 0,
                                   microsecond := 0 }) e.timestamp)).map
    (fun e => e.cost_usd)).sum

/-! ### `parse_date` (source lines 112-118)

`datetime.strptime` is modelled token by token after CPython's
`_strptime`: each directive becomes the regex fragment `_strptime` builds
for it, matching is case-insensitive, a whitespace run in the format
matches one or more whitespace characters, and the whole input (after the
source's `.strip()`) must be consumed.  A successfully matched `%z`
offset is converted to a `timezone` only if strictly within ±24 h
(otherwise `datetime.strptime` raises and the source's bare `except`
moves on to the next format), and a parsed `second` of 60 or 61 (allowed
by the `%S` fragment) likewise makes the `datetime` constructor raise.
`%Z` matches the C-locale timezone names `UTC` / `GMT`.

Each parsing helper consumes a prefix of the character list and returns
the rest.  The four formats are committed (PEG-style) translations of the
regexes; for these formats ordered choice agrees with regex backtracking
because every alternation's branches are distinguished by their first
characters and each token's boundary is a non-overlapping delimiter. -/

def isWsp (c : Char) : Bool :=
  c == ' ' || c == '\t' || c == '\n' || c == '\r' ||
    c == '\x0b' || c == '\x0c'

/-- Python `str.strip()`. -/
def pstrip (s : List Char) : List Char :=
  ((s.dropWhile isWsp).reverse.dropWhile isWsp).reverse

def isDig (c : Char) : Bool := 48 ≤ c.toNat && c.toNat ≤ 57

def digVal (c : Char) : Nat := c.toNat - 48

/-- Match a literal case-insensitively (`_strptime` compiles with
`re.IGNORECASE`). -/
def litCI : List Char → List Char → Option (List Char)
  | [], t => some t
  | _ :: _, [] => none
  | p :: ps, c :: cs =>
    if p.toLower == c.toLower then litCI ps cs else none

/-- A whitespace run in the format: `\s+`. -/
def wsp1 : List Char → Option (List Char)
  | c :: cs => if isWsp c then some (cs.dropWhile isWsp) else none
  | [] => none

/-- `%d`: `3[0-1]|[1-2]\d|0[1-9]|[1-9]| [1-9]` (the last alternative is a
space-padded single digit, as in ctime-style dates). -/
def strpDay : List Char → Option (Nat × List Char)
  | a :: b :: rest =>
    if a == '3' && (b == '0' || b == '1') then some (30 + digVal b, rest)
    else if (a == '1' || a == '2') && isDig b then
      some (digVal a * 10 + digVal b, rest)
    else if a == '0' && 49 ≤ b.toNat && b.toNat ≤ 57 then some (digVal b, rest)
    else if 49 ≤ a.toNat && a.toNat ≤ 57 then some (digVal a, b :: rest)
    else if a == ' ' && 49 ≤ b.toNat && b.toNat ≤ 57 then some (digVal b, rest)
    else none
  | [a] => if 49 ≤ a.toNat && a.toNat ≤ 57 then some (digVal a, []) else none
  | [] => none

/-- `%m`: `1[0-2]|0[1-9]|[1-9]`. -/
def strpMonth : List Char → Option (Nat × List Char)
  | a :: b :: rest =>
    if a == '1' && 48 ≤ b.toNat && b.toNat ≤ 50 then some (10 + digVal b, rest)
    else if a == '0' && 49 ≤ b.toNat && b.toNat ≤ 57 then some (digVal b, rest)
    else if 49 ≤ a.toNat && a.toNat ≤ 57 then some (digVal a, b :: rest)
    else none
  | [a] => if 49 ≤ a.toNat && a.toNat ≤ 57 then some (digVal a, []) else none
  | [] => none

/-- `%H`: `2[0-3]|[0-1]\d|\d`. -/
def strpHour : List Char → Option (Nat × List Char)
  | a :: b :: rest =>
    if a == '2' && 48 ≤ b.toNat && b.toNat ≤ 51 then some (20 + digVal b, rest)
    else if (a == '0' || a == '1') && isDig b then
      some (digVal a * 10 + digVal b, rest)
    else if isDig a then some (digVal a, b :: rest)
    else none
  | [a] => if isDig a then some (digVal a, []) else none
  | [] => none

/-- `%M`: `[0-5]\d|\d`. -/
def strpMin : List Char → Option (Nat × List Char)
  | a :: b :: rest =>
    if 48 ≤ a.toNat && a.toNat ≤ 53 && isDig b then
      some (digVal a * 10 + digVal b, rest)
    else if isDig a then some (digVal a, b :: rest)
    else none
  | [a] => if isDig a then some (digVal a, []) else none
  | [] => none

/-- `%S`: `6[0-1]|[0-5]\d|\d` (60 and 61 match here; they are rejected
later by the `datetime` constructor). -/
def strpSec : List Char → Option (Nat × List Char)
  | a :: b :: rest =>
    if a == '6' && (b == '0' || b == '1') then some (60 + digVal b, rest)
    else if 48 ≤ a.toNat && a.toNat ≤ 53 && isDig b then
      some (digVal a * 10 + digVal b, rest)
    else if isDig a then some (digVal a, b :: rest)
    else none
  | [a] => if isDig a then some (digVal a, []) else none
  | [] => none

/-- `%Y`: `\d\d\d\d`. -/
def strpYear : List Char → Option (Nat × List Char)
  | a :: b :: c :: d :: rest =>
    if isDig a && isDig b && isDig c && isDig d then
      some (((digVal a * 10 + digVal b) * 10 + digVal c) * 10 + digVal d, rest)
    else none
  | _ => none

def monthNames : List String :=
  ["jan", "feb", "mar", "apr", "may", "jun",
   "jul", "aug", "sep", "oct", "nov", "dec"]

/-- Try a list of names in order; answer the 1-based index of the first
that matches, and the rest of the input. -/
def strpNameIdx : List String → Nat → List Char → Option (Nat × List Char)
  | [], _, _ => none
  | n :: ns, i, t =>
    match litCI n.data t with
    | some r => some (i, r)
    | none => strpNameIdx ns (i + 1) t

/-- `%b`: one of the abbreviated month names, case-insensitively. -/
def strpMonthName (t : List Char) : Option (Nat × List Char) :=
  strpNameIdx monthNames 1 t

def weekdayNames : List String :=
  ["mon", "tue", "wed", "thu", "fri", "sat", "sun"]

/-- `%a`: one of the abbreviated weekday names; the value is parsed and
discarded (`strptime` does not check it against the date). -/
def strpWeekday (t : List Char) : Option (List Char) :=
  (strpNameIdx weekdayNames 1 t).map (fun r => r.2)

/-- `%Z` in the C locale: `UTC` or `GMT`, case-insensitively. -/
def strpTZName (t : List Char) : Option (List Char) :=
  match litCI "utc".data t with
  | some r => some r
  | none => litCI "gmt".data t

def dig2 : List Char → Option (Nat × List Char)
  | a :: b :: rest =>
    if isDig a && isDig b then some (digVal a * 10 + digVal b, rest) else none
  | _ => none

/-- `[0-5]\d`: a two-digit sexagesimal field (minutes or seconds of a
`%z` offset). -/
def dig2sex : List Char → Option (Nat × List Char)
  | a :: b :: rest =>
    if 48 ≤ a.toNat && a.toNat ≤ 53 && isDig b then
      some (digVal a * 10 + digVal b, rest)
    else none
  | _ => none

/-- A `%z` offset in microseconds from sign, hours, minutes, seconds and
fraction microseconds. -/
def mkOff (neg : Bool) (hh mm ss fr : Nat) : Int :=
  let total : Int := ((hh * 3600 + mm * 60 + ss) * 1000000 + fr : Nat)
  if neg then -total else total

/-- Up to `k` more fraction digits (greedy), scaling into microseconds:
`acc` is the value so far, `mul` the weight of the next digit. -/
def fracDigits : Nat → Nat → Nat → List Char → Nat × List Char
  | 0, acc, _, t => (acc, t)
  | _ + 1, acc, _, [] => (acc, [])
  | k + 1, acc, mul, c :: cs =>
    if isDig c then fracDigits k (acc + digVal c * mul) (mul / 10) cs
    else (acc, c :: cs)

/-- `%z`: the regex `[+-]\d\d:?[0-5]\d(:?[0-5]\d(\.\d\x7b1,6\x7d)?)?|Z`
(the `Z` branch is case-sensitive), followed by `_strptime`'s separator
surgery: when the hour-minute colon is present, colon-less seconds raise
"Inconsistent use of :", and when it is absent, colon-separated seconds
make the numeric conversion raise — either way the format attempt fails.
A seconds group can also simply not be part of the match, in which case
its leading colon (if any) is left unconsumed.  Returns the offset in
microseconds. -/
def strpZ (t : List Char) : Option (Int × List Char) :=
  match t with
  | [] => none
  | c :: rest =>
    if c == 'Z' then some (0, rest)
    else if c == '+' || c == '-' then
      match dig2 rest with
      | none => none
      | some (hh, r1) =>
        let colon1 := r1.head? == some ':'
        let r1' := if colon1 then r1.tail else r1
        match dig2sex r1' with
        | none => none
        | some (mm, r2) =>
          let colon2 := r2.head? == some ':'
          let r2' := if colon2 then r2.tail else r2
          match dig2sex r2' with
          | none => some (mkOff (c == '-') hh mm 0 0, r2)
          | some (ss, r3) =>
            if colon1 == colon2 then
              match r3 with
              | '.' :: d0 :: r4 =>
                if isDig d0 then
                  let fr := fracDigits 5 (digVal d0 * 100000) 10000 r4
                  some (mkOff (c == '-') hh mm ss fr.1, fr.2)
                else some (mkOff (c == '-') hh mm ss 0, '.' :: d0 :: r4)
              | _ => some (mkOff (c == '-') hh mm ss 0, r3)
            else none
    else none

def isLeap (y : Nat) : Bool := (y % 4 == 0 && y % 100 != 0) || y % 400 == 0

def daysInMonth (y m : Nat) : Nat :=
  if m == 2 then (if isLeap y then 29 else 28)
  else if m == 4 || m == 6 || m == 9 || m == 11 then 30
  else 31

/-- The checks done by the `datetime` constructor and `timezone` on the
matched values (the regex fragments already bound hour ≤ 23 and
minute ≤ 59): year in [1, 9999], day within the month, second ≤ 59 and
|offset| strictly under 24 hours.  A failure raises, the source's bare
`except` swallows it, and the next format is tried. -/
def validDT (y mo d s : Nat) (off : Int) : Bool :=
  decide (1 ≤ y) && decide (d ≤ daysInMonth y mo) && decide (s ≤ 59) &&
    decide (-86400000000 < off) && decide (off < 86400000000)

/-- The common `"%a, %d %b %Y "` head of the first two formats. -/
def strpDateRFC (s : List Char) : Option ((Nat × Nat × Nat) × List Char) := do
  let r0 ← strpWeekday s
  let r1 ← litCI ",".data r0
  let r2 ← wsp1 r1
  let (d, r3) ← strpDay r2
  let r4 ← wsp1 r3
  let (mo, r5) ← strpMonthName r4
  let r6 ← wsp1 r5
  let (y, r7) ← strpYear r6
  let r8 ← wsp1 r7
  some ((y, mo, d), r8)

/-- `"%H:%M:%S"`. -/
def strpHMS (s : List Char) : Option ((Nat × Nat × Nat) × List Char) := do
  let (h, r1) ← strpHour s
  let r2 ← litCI ":".data r1
  let (mi, r3) ← strpMin r2
  let r4 ← litCI ":".data r3
  let (se, r5) ← strpSec r4
  some ((h, mi, se), r5)

/-- The `"%Y-%m-%dT"` head of the last two formats. -/
def strpDateISO (s : List Char) : Option ((Nat × Nat × Nat) × List Char) := do
  let (y, r1) ← strpYear s
  let r2 ← litCI "-".data r1
  let (mo, r3) ← strpMonth r2
  let r4 ← litCI "-".data r3
  let (d, r5) ← strpDay r4
  let r6 ← litCI "T".data r5
  some ((y, mo, d), r6)

def mkParsed (ymd hms : Nat × Nat × Nat) (off : Int) :
    Option (DateTime × Int) :=
  if validDT ymd.1 ymd.2.1 ymd.2.2 hms.2.2 off then
    some (⟨ymd.1, ymd.2.1, ymd.2.2, hms.1, hms.2.1, hms.2.2, 0⟩, off)
  else none

/-- `"%a, %d %b %Y %H:%M:%S %z"` (whole-input match). -/
def strpFmt1 (s : List Char) : Option (DateTime × Int) := do
  let (ymd, r1) ← strpDateRFC s
  let (hms, r2) ← strpHMS r1
  let r3 ← wsp1 r2
  let (off, r4) ← strpZ r3
  if r4.isEmpty then mkParsed ymd hms off else none

/-- `"%a, %d %b %Y %H:%M:%S %Z"`; the named zone (UTC/GMT) denotes
offset 0. -/
def strpFmt2 (s : List Char) : Option (DateTime × Int) := do
  let (ymd, r1) ← strpDateRFC s
  let (hms, r2) ← strpHMS r1
  let r3 ← wsp1 r2
  let r4 ← strpTZName r3
  if r4.isEmpty then mkParsed ymd hms 0 else none

/-- `"%Y-%m-%dT%H:%M:%S%z"`. -/
def strpFmt3 (s : List Char) : Option (DateTime × Int) := do
  let (ymd, r1) ← strpDateISO s
  let (hms, r2) ← strpHMS r1
  let (off, r3) ← strpZ r2
  if r3.isEmpty then mkParsed ymd hms off else none

/-- `"%Y-%m-%dT%H:%M:%SZ"` (the trailing `Z` is a literal, matched
case-insensitively, denoting no offset information). -/
def strpFmt4 (s : List Char) : Option (DateTime × Int) := do
  let (ymd, r1) ← strpDateISO s
  let (hms, r2) ← strpHMS r1
  let r3 ← litCI "Z".data r2
  if r3.isEmpty then mkParsed ymd hms 0 else none

/-- The format loop of `parse_date`: first format that parses wins,
yielding the wall-clock fields and the offset the string stated. -/
def strptimeAny (s : List Char) : Option (DateTime × Int) :=
  match strpFmt1 s with
  | some r => some r
  | none =>
    match strpFmt2 s with
    | some r => some r
    | none =>
      match strpFmt3 s with
      | some r => some r
      | none => strpFmt4 s

/-- `parse_date` (source lines 112-118): on a successful parse,
`.replace(tzinfo=timezone.utc)` keeps the wall-clock fields and throws
the stated offset away; on failure the current instant `now`
(`datetime.now(timezone.utc)`) is returned. -/
def parse_date (s : String) (now : DateTime) : DateTime :=
  match strptimeAny (pstrip s.data) with
  | some (dt, _off) => dt
  | none => now

/-- The epoch instant (microseconds, arbitrary fixed origin) denoted by
wall-clock fields `dt` carrying a UTC offset of `off` microseconds. -/
def statedEpoch (dt : DateTime) (off : Int) : Int :=
  (toEpochMicro dt : Int) - off

/-! ### Concrete sample run data, used to instantiate the theorems -/

def wNow : DateTime := ⟨2026, 10, 12, 12, 0, 0, 0⟩

/-- A fresh candidate, 1 h old, high severity. -/
def wNew : Event :=
  ⟨"aaa", "Missile strike hits city", "Feed A", "http://a", "d1",
    "2026-10-12T11:00:00+00:00", "high", 500000,
    some "Missile (generic est.)", true, none⟩

/-- A prior event, 36 h old, inside the retention window; its stored
`is_breaking` is stale (`true`). -/
def wKeep : Event :=
  ⟨"bbb", "Shelling reported", "Feed B", "http://b", "d2",
    "2026-10-11T00:00:00+00:00", "low", 10000, some "Artillery round",
    false, some true⟩

/-- A prior event, about a week old, outside the 72 h window. -/
def wOld : Event :=
  ⟨"ccc", "Old clash", "Feed C", "http://c", "d3",
    "2026-10-05T00:00:00+00:00", "high", 9, none, false, some false⟩

/-- A run instant whose microseconds are non-zero (as `datetime.now`
virtually always returns). -/
def wNowMicro : DateTime := ⟨2026, 10, 12, 14, 30, 0, 500000⟩

/-- An event timestamped exactly at 00:00:00 UTC of the run's day. -/
def wMidnight : Event :=
  ⟨"mmm", "Event at midnight", "Feed M", "http://m", "dm",
    "2026-10-12T00:00:00+00:00", "low", 5, none, false, some false⟩

/-! ## Theorems -/

/-! ### Classification (claim C6) -/

theorem countP_one_le_iff (l : List String) (p : String → Bool) :
    1 ≤ l.countP p ↔ ∃ w ∈ l, p w = true := by
  constructor
  · intro h
    exact List.countP_pos_iff.mp (by omega)
  · intro h
    have := List.countP_pos_iff.mpr h
    omega

theorem exists_forall_contra (l : List String) (q : String → Bool)
    (hex : ∃ w ∈ l, q w = true) (hall : ∀ w ∈ l, q w = false) : False := by
  obtain ⟨w, hw, ht⟩ := hex
  rw [hall w hw] at ht
  exact Bool.false_ne_true ht

/-- C6: `classify` is a total function on texts; it answers `"high"` iff
some high-severity keyword occurs (case-insensitively) in the text,
regardless of medium keywords; else `"medium"` iff some medium-severity
keyword occurs; else `"low"`.  Only presence matters — the counts the
source computes influence the result only through being non-zero. -/
theorem classify_spec (text : String) :
    (classify text = "high" ↔
      ∃ w ∈ HIGH_WORDS, strIn w (lowerStr text) = true) ∧
    (classify text = "medium" ↔
      ((∀ w ∈ HIGH_WORDS, strIn w (lowerStr text) = false) ∧
        ∃ w ∈ MEDIUM_WORDS, strIn w (lowerStr text) = true)) ∧
    (classify text = "low" ↔
      ((∀ w ∈ HIGH_WORDS, strIn w (lowerStr text) = false) ∧
        ∀ w ∈ MEDIUM_WORDS, strIn w (lowerStr text) = false)) := by
  have hnot : ∀ (l : List String) (p : String → Bool),
      (¬∃ w ∈ l, p w = true) → ∀ w ∈ l, p w = false := by
    intro l p h w hw
    rcases Bool.eq_false_or_eq_true (p w) with ht | hf
    · exact absurd ⟨w, hw, ht⟩ h
    · exact hf
  simp only [classify]
  by_cases hh : ∃ w ∈ HIGH_WORDS, strIn w (lowerStr text) = true
  · have h1 : 1 ≤ HIGH_WORDS.countP (fun w => strIn w (lowerStr text)) :=
      (countP_one_le_iff _ _).mpr hh
    rw [if_pos h1]
    refine ⟨iff_of_true rfl hh, ?_, ?_⟩
    · exact iff_of_false (by decide)
        (fun hc => exists_forall_contra _ _ hh hc.1)
    · exact iff_of_false (by decide)
        (fun hc => exists_forall_contra _ _ hh hc.1)
  · have h0 : ¬1 ≤ HIGH_WORDS.countP (fun w => strIn w (lowerStr text)) := by
      rw [countP_one_le_iff]; exact hh
    have hhf : ∀ w ∈ HIGH_WORDS, strIn w (lowerStr text) = false :=
      hnot HIGH_WORDS _ hh
    rw [if_neg h0]
    by_cases hm : ∃ w ∈ MEDIUM_WORDS, strIn w (lowerStr text) = true
    · have m1 : 1 ≤ MEDIUM_WORDS.countP (fun w => strIn w (lowerStr text)) :=
        (countP_one_le_iff _ _).mpr hm
      rw [if_pos m1]
      refine ⟨?_, iff_of_true rfl ⟨hhf, hm⟩, ?_⟩
      · exact iff_of_false (by decide) (fun hc => exists_forall_contra _ _ hc hhf)
      · exact iff_of_false (by decide)
          (fun hc => exists_forall_contra _ _ hm hc.2)
    · have m0 : ¬1 ≤ MEDIUM_WORDS.countP (fun w => strIn w (lowerStr text)) := by
        rw [countP_one_le_iff]; exact hm
      have hmf : ∀ w ∈ MEDIUM_WORDS, strIn w (lowerStr text) = false :=
        hnot MEDIUM_WORDS _ hm
      rw [if_neg m0]
      refine ⟨?_, ?_, iff_of_true rfl ⟨hhf, hmf⟩⟩
      · exact iff_of_false (by decide) (fun hc => exists_forall_contra _ _ hc hhf)
      · exact iff_of_false (by decide)
          (fun hc => exists_forall_contra _ _ hc.2 hmf)

/-- Witness for C6 at a concrete text: "missile strike" is a high keyword,
"attacked" a medium one, yet the result is `"high"`. -/
theorem classify_spec_witness :
    classify "Base attacked in missile strike overnight" = "high" :=
  (classify_spec "Base attacked in missile strike overnight").1.mpr
    ⟨"missile strike", by decide, by decide⟩

/-! ### Cost estimation (claim C1) -/

theorem estimateLoop_eq_find (l : List (Pat × Nat × String)) (t : List Char) :
    estimateLoop l t =
      match l.find? (fun r => patSearch r.1 t) with
      | some r => (r.2.1, some r.2.2)
      | none => (0, none) := by
  induction l with
  | nil => rfl
  | cons r rest ih =>
    obtain ⟨p, cost, label⟩ := r
    by_cases h : patSearch p t
    · rw [List.find?_cons_of_pos _ (by simpa using h)]
      simp [estimateLoop, h]
    · rw [List.find?_cons_of_neg _ (by simpa using h)]
      simpa [estimateLoop, h] using ih

/-- The first 13 table rows are the specific categories; none of them
carries the generic missile or bomb cost/label pair. -/
theorem take13_not_generic :
    ∀ r ∈ WEAPON_COSTS.take 13,
      ¬(r.2.1 = 500000 ∧ r.2.2 = "Missile (generic est.)") ∧
        ¬(r.2.1 = 50000 ∧ r.2.2 = "Bomb/munition") := by
  decide

/-- C1: `estimate_cost` returns the cost and label of the first pattern in
`WEAPON_COSTS` order that matches the text case-insensitively; a text
matching a specific pattern (one of the first 13 rows) never gets the
generic missile/bomb result even if those patterns also match; with no
match at all it returns cost 0 and no label. -/
theorem estimate_cost_spec (text : String) :
    (estimate_cost text =
      match WEAPON_COSTS.find? (fun r => patSearch r.1 (lowerStr text).data) with
      | some r => (r.2.1, some r.2.2)
      | none => (0, none)) ∧
    ((∃ r ∈ WEAPON_COSTS.take 13, patSearch r.1 (lowerStr text).data = true) →
      ∃ r ∈ WEAPON_COSTS.take 13,
        estimate_cost text = (r.2.1, some r.2.2) ∧
        estimate_cost text ≠ (500000, some "Missile (generic est.)") ∧
        estimate_cost text ≠ (50000, some "Bomb/munition")) ∧
    ((∀ r ∈ WEAPON_COSTS, patSearch r.1 (lowerStr text).data = false) →
      estimate_cost text = (0, none)) := by
  set p : Pat × Nat × String → Bool :=
    fun r => patSearch r.1 (lowerStr text).data with hp
  have main : estimate_cost text =
      match WEAPON_COSTS.find? p with
      | some r => (r.2.1, some r.2.2)
      | none => (0, none) := estimateLoop_eq_find _ _
  refine ⟨main, ?_, ?_⟩
  · rintro ⟨r, hr, hpr⟩
    have hsome : ((WEAPON_COSTS.take 13).find? p).isSome :=
      List.find?_isSome.mpr ⟨r, hr, hpr⟩
    obtain ⟨r0, hr0⟩ := Option.isSome_iff_exists.mp hsome
    have hmem : r0 ∈ WEAPON_COSTS.take 13 := List.mem_of_find?_eq_some hr0
    have hfull : WEAPON_COSTS.find? p = some r0 := by
      rw [← List.take_append_drop 13 WEAPON_COSTS, List.find?_append, hr0]
      rfl
    have hval : estimate_cost text = (r0.2.1, some r0.2.2) := by
      rw [main, hfull]
    have hng := take13_not_generic r0 hmem
    refine ⟨r0, hmem, hval, ?_, ?_⟩ <;>
      · rw [hval]
        simp only [Ne, Prod.mk.injEq, Option.some.injEq]
        tauto
  · intro hnone
    have : WEAPON_COSTS.find? p = none :=
      List.find?_eq_none.mpr (by simpa [hp] using hnone)
    rw [main, this]

/-- Witness for C1 at a concrete text matching both the specific
"tomahawk" row and the generic "missile" row. -/
theorem estimate_cost_spec_witness :
    ∃ r ∈ WEAPON_COSTS.take 13,
      estimate_cost "Tomahawk missile fired" = (r.2.1, some r.2.2) ∧
      estimate_cost "Tomahawk missile fired" ≠ (500000, some "Missile (generic est.)") ∧
      estimate_cost "Tomahawk missile fired" ≠ (50000, some "Bomb/munition") :=
  (estimate_cost_spec "Tomahawk missile fired").2.1
    ⟨(.lit "tomahawk", 2000000, "Tomahawk cruise missile"), by decide, by decide⟩

/-! ### Event identity (claim C8) -/

theorem le32_length (x : Nat) : (le32 x).length = 4 := rfl

theorem le32_lt (x : Nat) : ∀ b ∈ le32 x, b < 256 := by
  intro b hb
  simp only [le32, List.mem_cons, List.not_mem_nil, or_false] at hb
  rcases hb with h | h | h | h <;> subst h <;>
    exact Nat.mod_lt _ (by omega)

theorem md5Bytes_length (msg : List Nat) : (md5Bytes msg).length = 16 := by
  simp [md5Bytes, le32_length]

theorem md5Bytes_lt (msg : List Nat) : ∀ b ∈ md5Bytes msg, b < 256 := by
  intro b hb
  simp only [md5Bytes, List.mem_append] at hb
  rcases hb with ((h | h) | h) | h <;> exact le32_lt _ _ h

theorem hexdigest_length (bs : List Nat) :
    (hexdigest bs).length = 2 * bs.length := by
  induction bs with
  | nil => rfl
  | cons b tl ih =>
    have hsplit : hexdigest (b :: tl) = hexPair b ++ hexdigest tl := by
      simp [hexdigest]
    rw [hsplit, List.length_append, ih, List.length_cons,
      show (hexPair b).length = 2 from rfl]
    omega

theorem hexChar_mem (n : Nat) (h : n < 16) : hexChar n ∈ hexDigits :=
  List.mem_map_of_mem _ (List.mem_range.mpr h)

theorem hexdigest_mem (bs : List Nat) (hbs : ∀ b ∈ bs, b < 256) :
    ∀ c ∈ hexdigest bs, c ∈ hexDigits := by
  intro c hc
  simp only [hexdigest, List.mem_flatMap] at hc
  obtain ⟨b, hb, hcb⟩ := hc
  have hb256 := hbs b hb
  simp only [hexPair, List.mem_cons, List.not_mem_nil, or_false] at hcb
  rcases hcb with h | h <;> subst h
  · exact hexChar_mem _ (by omega)
  · exact hexChar_mem _ (Nat.mod_lt _ (by omega))

/-- C8: `event_id` is a pure function of the first 50 characters of the
title and the calendar date — two titles agreeing on their first 50
characters yield the same id for the same date, whatever their sources or
full timestamps — and the id is a 10-character lowercase-hex token. -/
theorem event_id_spec (t1 t2 : String) (d : Date)
    (h : t1.take 50 = t2.take 50) :
    event_id t1 d = event_id t2 d ∧
    (event_id t1 d).length = 10 ∧
    ∀ c ∈ (event_id t1 d).data, c ∈ hexDigits := by
  refine ⟨by rw [event_id, event_id, h], ?_, ?_⟩
  · rw [event_id]
    show ((hexdigest (md5Bytes (utf8 (t1.take 50 ++ dateStr d)))).take 10).length = 10
    rw [List.length_take, hexdigest_length, md5Bytes_length]
    omega
  · intro c hc
    have : c ∈ hexdigest (md5Bytes (utf8 (t1.take 50 ++ dateStr d))) :=
      (List.take_sublist 10 _).subset hc
    exact hexdigest_mem _ (md5Bytes_lt _) c this

set_option maxRecDepth 8192 in
/-- Witness for C8: two titles sharing their first 50 characters (they
differ only beyond) collapse to the same 10-hex-character id. -/
theorem event_id_spec_witness :
    event_id "Strikes reported near the port of Odesa overnight by drones"
        ⟨2026, 10, 12⟩ =
      event_id "Strikes reported near the port of Odesa overnight and today"
        ⟨2026, 10, 12⟩ ∧
    (event_id "Strikes reported near the port of Odesa overnight by drones"
        ⟨2026, 10, 12⟩).length = 10 ∧
    ∀ c ∈ (event_id "Strikes reported near the port of Odesa overnight by drones"
        ⟨2026, 10, 12⟩).data, c ∈ hexDigits :=
  event_id_spec _ _ ⟨2026, 10, 12⟩ (by decide)

/-! ### Dict lemmas -/

theorem dmem_iff_mem_dkeys (d : List (String × Event)) (k : String) :
    dmem d k = true ↔ k ∈ dkeys d := by
  simp only [dmem, List.any_eq_true, dkeys, List.mem_map, beq_iff_eq]

theorem find?_eq_none_of_dmem_false (d : List (String × Event)) (k : String)
    (h : dmem d k = false) : d.find? (fun kv => kv.1 == k) = none := by
  rw [List.find?_eq_none]
  intro kv hkv hbeq
  have : dmem d k = true := by
    simp only [dmem, List.any_eq_true]
    exact ⟨kv, hkv, hbeq⟩
  rw [h] at this
  exact Bool.false_ne_true this

theorem dlookup_eq_none_of_dmem_false (d : List (String × Event)) (k : String)
    (h : dmem d k = false) : dlookup d k = none := by
  unfold dlookup
  rw [find?_eq_none_of_dmem_false d k h]

theorem dlookup_mem_values (d : List (String × Event)) (k : String) (v : Event)
    (h : dlookup d k = some v) : v ∈ d.map Prod.snd := by
  unfold dlookup at h
  cases hf : d.find? (fun kv => kv.1 == k) with
  | none => rw [hf] at h; cases h
  | some kv =>
    rw [hf] at h
    obtain rfl : kv.2 = v := by injection h
    exact List.mem_map_of_mem _ (List.mem_of_find?_eq_some hf)

theorem mem_dinsert (d : List (String × Event)) (k : String) (v : Event)
    (kv : String × Event) (h : kv ∈ dinsert d k v) : kv = (k, v) ∨ kv ∈ d := by
  unfold dinsert at h
  by_cases hm : dmem d k
  · rw [if_pos hm] at h
    obtain ⟨kv0, hkv0, hmap⟩ := List.mem_map.mp h
    by_cases hb : kv0.1 == k
    · rw [if_pos hb] at hmap
      exact Or.inl hmap.symm
    · rw [if_neg hb] at hmap
      exact Or.inr (hmap ▸ hkv0)
  · rw [if_neg hm] at h
    rcases List.mem_append.mp h with h1 | h1
    · exact Or.inr h1
    · simp only [List.mem_singleton] at h1
      exact Or.inl h1

theorem find?_map_update_self (d : List (String × Event)) (k : String) (v : Event)
    (hm : k ∈ dkeys d) :
    (d.map (fun kv => if kv.1 == k then (k, v) else kv)).find?
        (fun kv => kv.1 == k) = some (k, v) := by
  induction d with
  | nil => simp [dkeys] at hm
  | cons kv0 tl ih =>
    rw [List.map_cons]
    by_cases hb : kv0.1 == k
    · rw [if_pos hb,
        @List.find?_cons_of_pos _ (fun kv => kv.1 == k) (k, v) _ (by simp)]
    · rw [if_neg hb,
        @List.find?_cons_of_neg _ (fun kv => kv.1 == k) kv0 _ hb]
      have hm' : k ∈ dkeys tl := by
        have hcons : k ∈ kv0.1 :: dkeys tl := by simpa [dkeys] using hm
        rcases List.mem_cons.mp hcons with rfl | h1
        · exact absurd (by simp) hb
        · exact h1
      exact ih hm'

theorem find?_map_update_ne (d : List (String × Event)) (k k' : String) (v : Event)
    (hne : k' ≠ k) :
    (d.map (fun kv => if kv.1 == k then (k, v) else kv)).find?
        (fun kv => kv.1 == k') = d.find? (fun kv => kv.1 == k') := by
  induction d with
  | nil => rfl
  | cons kv0 tl ih =>
    rw [List.map_cons]
    by_cases hb : kv0.1 == k
    · rw [if_pos hb]
      have h0 : kv0.1 = k := by simpa using hb
      rw [@List.find?_cons_of_neg _ (fun kv => kv.1 == k') (k, v) _
          (by simpa using Ne.symm hne),
        @List.find?_cons_of_neg _ (fun kv => kv.1 == k') kv0 _
          (by simp [h0]; exact Ne.symm hne)]
      exact ih
    · rw [if_neg hb]
      by_cases hb' : kv0.1 == k'
      · rw [@List.find?_cons_of_pos _ (fun kv => kv.1 == k') kv0 _ hb',
          @List.find?_cons_of_pos _ (fun kv => kv.1 == k') kv0 _ hb']
      · rw [@List.find?_cons_of_neg _ (fun kv => kv.1 == k') kv0 _ hb',
          @List.find?_cons_of_neg _ (fun kv => kv.1 == k') kv0 _ hb']
        exact ih

theorem dlookup_dinsert_self (d : List (String × Event)) (k : String) (v : Event) :
    dlookup (dinsert d k v) k = some v := by
  unfold dinsert
  by_cases hm : dmem d k
  · rw [if_pos hm]
    unfold dlookup
    rw [find?_map_update_self d k v ((dmem_iff_mem_dkeys d k).mp hm)]
  · rw [if_neg hm]
    unfold dlookup
    rw [List.find?_append, find?_eq_none_of_dmem_false d k (by simpa using hm)]
    have h1 : List.find? (fun kv => kv.1 == k) [(k, v)] = some (k, v) := by
      rw [@List.find?_cons_of_pos _ (fun kv => kv.1 == k) (k, v) _ (by simp)]
    rw [h1]
    rfl

theorem dlookup_dinsert_ne (d : List (String × Event)) (k k' : String) (v : Event)
    (hne : k' ≠ k) : dlookup (dinsert d k v) k' = dlookup d k' := by
  unfold dinsert
  by_cases hm : dmem d k
  · rw [if_pos hm]
    unfold dlookup
    rw [find?_map_update_ne d k k' v hne]
  · rw [if_neg hm]
    unfold dlookup
    rw [List.find?_append]
    have h1 : List.find? (fun kv => kv.1 == k') [(k, v)] = none := by
      rw [@List.find?_cons_of_neg _ (fun kv => kv.1 == k') (k, v) _
        (by simpa using Ne.symm hne)]
      rfl
    rw [h1]
    cases d.find? (fun kv => kv.1 == k') <;> rfl

theorem any_map_eq (d : List (String × Event))
    (f : String × Event → String × Event) (p : String × Event → Bool)
    (h : ∀ kv ∈ d, p (f kv) = p kv) : (d.map f).any p = d.any p := by
  induction d with
  | nil => rfl
  | cons kv tl ih =>
    simp only [List.map_cons, List.any_cons]
    rw [h kv (List.mem_cons_self _ _),
      ih (fun x hx => h x (List.mem_cons_of_mem _ hx))]

theorem dmem_dinsert (d : List (String × Event)) (k k' : String) (v : Event) :
    dmem (dinsert d k v) k' = (dmem d k' || (k == k')) := by
  unfold dinsert
  by_cases hm : dmem d k
  · rw [if_pos hm]
    have hmap : dmem (d.map (fun kv => if kv.1 == k then (k, v) else kv)) k' =
        dmem d k' := by
      unfold dmem
      apply any_map_eq
      intro kv _
      by_cases hb : kv.1 == k
      · have h1 : kv.1 = k := by simpa using hb
        rw [if_pos hb]
        show (k == k') = (kv.1 == k')
        rw [h1]
      · rw [if_neg hb]
    rw [hmap]
    by_cases hk : k == k'
    · have hk' : k = k' := by simpa using hk
      subst hk'
      rw [hk]
      simp only [Bool.or_true]
      exact hm
    · have hk0 : (k == k') = false := by
        rcases Bool.eq_false_or_eq_true (k == k') with h1 | h1
        · exact absurd h1 hk
        · exact h1
      rw [hk0, Bool.or_false]
  · rw [if_neg hm]
    simp [dmem, List.any_append]

theorem dmem_dictOfEvents (es : List Event) (i : String) :
    dmem (dictOfEvents es) i = es.any (fun e => e.id == i) := by
  suffices h : ∀ acc : List (String × Event),
      dmem (es.foldl (fun d e => dinsert d e.id e) acc) i =
        (dmem acc i || es.any (fun e => e.id == i)) by
    have := h []
    simpa [dictOfEvents, dmem] using this
  induction es with
  | nil => intro acc; simp [dmem]
  | cons e tl ih =>
    intro acc
    rw [List.foldl_cons, ih, dmem_dinsert]
    simp [Bool.or_assoc]

theorem dictFold_lookup (es : List Event) (i : String) (v : Event) :
    ∀ acc : List (String × Event),
      dlookup (es.foldl (fun d e => dinsert d e.id e) acc) i = some v →
      (v ∈ es ∧ v.id = i) ∨ dlookup acc i = some v := by
  induction es with
  | nil => intro acc h; exact Or.inr h
  | cons e tl ih =>
    intro acc h
    rw [List.foldl_cons] at h
    rcases ih _ h with ⟨hv, hid⟩ | hacc
    · exact Or.inl ⟨List.mem_cons_of_mem _ hv, hid⟩
    · by_cases hik : i = e.id
      · subst hik
        rw [dlookup_dinsert_self] at hacc
        obtain rfl : e = v := by injection hacc
        exact Or.inl ⟨List.mem_cons_self _ _, rfl⟩
      · rw [dlookup_dinsert_ne _ _ _ _ hik] at hacc
        exact Or.inr hacc

/-- Looking up `i` in `dictOfEvents es` yields an element of `es` whose id
is `i`. -/
theorem dlookup_dictOfEvents (es : List Event) (i : String) (v : Event)
    (h : dlookup (dictOfEvents es) i = some v) : v ∈ es ∧ v.id = i := by
  rcases dictFold_lookup es i v [] h with hg | hbad
  · exact hg
  · cases hbad

theorem dmem_newDict_false (ne : List Event) (i : String)
    (h : ∀ e ∈ ne, e.id ≠ i) : dmem (newDict ne) i = false := by
  rw [newDict, dmem_dictOfEvents]
  rw [List.any_eq_false]
  intro e he
  simpa using h e he

/-- A dict lookup on the merged dict agrees with the new-candidate dict
wherever the latter is defined (new data overrides prior data). -/
theorem dlookup_mergedDict_new (ne ex : List Event) (i : String) (v : Event)
    (h : dlookup (newDict ne) i = some v) :
    dlookup (mergedDict ne ex) i = some v := by
  unfold mergedDict dlookup
  rw [List.find?_append]
  unfold dlookup at h
  cases hf : (newDict ne).find? (fun kv => kv.1 == i) with
  | none => rw [hf] at h; cases h
  | some kv => rw [hf] at h; exact h

theorem dlookup_filter_key (d : List (String × Event)) (p : String → Bool)
    (k : String) (hk : p k = true) :
    dlookup (d.filter (fun kv => p kv.1)) k = dlookup d k := by
  induction d with
  | nil => rfl
  | cons kv tl ih =>
    rw [List.filter_cons]
    by_cases hkv : kv.1 == k
    · have h1 : kv.1 = k := by simpa using hkv
      rw [if_pos (by rw [h1]; exact hk)]
      unfold dlookup
      rw [@List.find?_cons_of_pos _ (fun x => x.1 == k) kv _ hkv,
        @List.find?_cons_of_pos _ (fun x => x.1 == k) kv _ hkv]
    · by_cases hp : p kv.1
      · rw [if_pos hp]
        unfold dlookup
        rw [@List.find?_cons_of_neg _ (fun x => x.1 == k) kv _ hkv,
          @List.find?_cons_of_neg _ (fun x => x.1 == k) kv _ hkv]
        exact ih
      · rw [if_neg hp]
        unfold dlookup at ih ⊢
        rw [@List.find?_cons_of_neg _ (fun x => x.1 == k) kv _ hkv]
        exact ih

/-- Prior entries whose id has no new candidate are looked up unchanged in
the merged dict. -/
theorem dlookup_mergedDict_old (ne ex : List Event) (i : String)
    (h : ∀ e ∈ ne, e.id ≠ i) :
    dlookup (mergedDict ne ex) i = dlookup (dictOfEvents ex) i := by
  have hmf : dmem (newDict ne) i = false := dmem_newDict_false ne i h
  unfold mergedDict dlookup
  rw [List.find?_append, find?_eq_none_of_dmem_false _ i hmf]
  have : dlookup ((dictOfEvents ex).filter (fun kv => !dmem (newDict ne) kv.1)) i =
      dlookup (dictOfEvents ex) i :=
    dlookup_filter_key _ (fun key => !dmem (newDict ne) key) i
      (by show (!(dmem (newDict ne) i)) = true; rw [hmf]; rfl)
  unfold dlookup at this
  cases hf : ((dictOfEvents ex).filter
      (fun kv => !dmem (newDict ne) kv.1)).find? (fun kv => kv.1 == i) with
  | none =>
    rw [hf] at this
    cases hg : (dictOfEvents ex).find? (fun kv => kv.1 == i) with
    | none => rfl
    | some kv => rw [hg] at this; cases this
  | some kv =>
    rw [hf] at this
    cases hg : (dictOfEvents ex).find? (fun kv => kv.1 == i) with
    | none => rw [hg] at this; cases this
    | some kv' =>
      rw [hg] at this
      exact this

theorem pairsId_dinsert (d : List (String × Event)) (e : Event)
    (h : ∀ kv ∈ d, kv.2.id = kv.1) :
    ∀ kv ∈ dinsert d e.id e, kv.2.id = kv.1 := by
  intro kv hkv
  rcases mem_dinsert _ _ _ _ hkv with rfl | hkv'
  · rfl
  · exact h _ hkv'

/-- Every entry of `dictOfEvents es` stores a value whose id is its key. -/
theorem pairsId_dictOfEvents (es : List Event) :
    ∀ kv ∈ dictOfEvents es, kv.2.id = kv.1 := by
  suffices h : ∀ acc : List (String × Event), (∀ kv ∈ acc, kv.2.id = kv.1) →
      ∀ kv ∈ es.foldl (fun d e => dinsert d e.id e) acc, kv.2.id = kv.1 by
    exact h [] (by intro kv hc; cases hc)
  induction es with
  | nil => intro acc hacc; exact hacc
  | cons e tl ih =>
    intro acc hacc
    rw [List.foldl_cons]
    exact ih _ (pairsId_dinsert _ _ hacc)

theorem pairsId_mergedDict (ne ex : List Event) :
    ∀ kv ∈ mergedDict ne ex, kv.2.id = kv.1 := by
  intro kv hkv
  rcases List.mem_append.mp hkv with h | h
  · exact pairsId_dictOfEvents ne kv h
  · exact pairsId_dictOfEvents ex kv (List.mem_of_mem_filter h)

theorem dkeys_dinsert (d : List (String × Event)) (k : String) (v : Event) :
    dkeys (dinsert d k v) = if dmem d k then dkeys d else dkeys d ++ [k] := by
  unfold dinsert
  by_cases hm : dmem d k
  · rw [if_pos hm, if_pos hm]
    unfold dkeys
    rw [List.map_map]
    apply List.map_congr_left
    intro kv _
    by_cases hb : kv.1 == k
    · have h1 : kv.1 = k := by simpa using hb
      simp [Function.comp, hb, h1]
    · simp [Function.comp, hb]
  · rw [if_neg hm, if_neg hm]
    unfold dkeys
    simp

theorem not_mem_dkeys_of_dmem_false (d : List (String × Event)) (k : String)
    (h : dmem d k = false) : k ∉ dkeys d := by
  intro hc
  have := (dmem_iff_mem_dkeys d k).mpr hc
  rw [h] at this
  exact Bool.false_ne_true this

theorem nodup_dkeys_dinsert (d : List (String × Event)) (k : String) (v : Event)
    (h : (dkeys d).Nodup) : (dkeys (dinsert d k v)).Nodup := by
  rw [dkeys_dinsert]
  by_cases hm : dmem d k
  · rw [if_pos hm]; exact h
  · rw [if_neg hm]
    have hk : k ∉ dkeys d := by
      apply not_mem_dkeys_of_dmem_false
      rcases Bool.eq_false_or_eq_true (dmem d k) with h1 | h1
      · exact absurd h1 hm
      · exact h1
    rw [List.nodup_append]
    exact ⟨h, List.nodup_singleton _, by
      intro a ha hb
      rw [List.mem_singleton.mp hb] at ha
      exact hk ha⟩

theorem nodup_dkeys_dictOfEvents (es : List Event) :
    (dkeys (dictOfEvents es)).Nodup := by
  suffices h : ∀ acc : List (String × Event), (dkeys acc).Nodup →
      (dkeys (es.foldl (fun d e => dinsert d e.id e) acc)).Nodup by
    exact h [] List.nodup_nil
  induction es with
  | nil => intro acc hacc; exact hacc
  | cons e tl ih =>
    intro acc hacc
    rw [List.foldl_cons]
    exact ih _ (nodup_dkeys_dinsert _ _ _ hacc)

theorem nodup_dkeys_mergedDict (ne ex : List Event) :
    (dkeys (mergedDict ne ex)).Nodup := by
  unfold mergedDict
  have happ : dkeys (newDict ne ++
      (dictOfEvents ex).filter (fun kv => !dmem (newDict ne) kv.1)) =
      dkeys (newDict ne) ++
        dkeys ((dictOfEvents ex).filter (fun kv => !dmem (newDict ne) kv.1)) := by
    unfold dkeys
    rw [List.map_append]
  rw [happ, List.nodup_append]
  refine ⟨nodup_dkeys_dictOfEvents ne, ?_, ?_⟩
  · have hsub : ((dictOfEvents ex).filter
        (fun kv => !dmem (newDict ne) kv.1)).Sublist (dictOfEvents ex) :=
      List.filter_sublist _
    exact (nodup_dkeys_dictOfEvents ex).sublist (hsub.map Prod.fst)
  · intro a ha hb
    unfold dkeys at hb
    obtain ⟨kv, hkv, rfl⟩ := List.mem_map.mp hb
    have hpred := List.of_mem_filter hkv
    have : dmem (newDict ne) kv.1 = false := by
      rcases Bool.eq_false_or_eq_true (dmem (newDict ne) kv.1) with h1 | h1
      · rw [h1] at hpred; cases hpred
      · exact h1
    exact not_mem_dkeys_of_dmem_false _ _ this ha

theorem dlookup_of_mem_nodup (d : List (String × Event)) (k : String) (v : Event)
    (hnd : (dkeys d).Nodup) (hmem : (k, v) ∈ d) : dlookup d k = some v := by
  induction d with
  | nil => cases hmem
  | cons kv0 tl ih =>
    rcases List.mem_cons.mp hmem with heq | htl
    · unfold dlookup
      rw [@List.find?_cons_of_pos _ (fun kv => kv.1 == k) kv0 _
        (by rw [← heq]; simp)]
      rw [← heq]
    · have hk0 : ¬(kv0.1 == k) = true := by
        intro hbeq
        have h1 : kv0.1 = k := by simpa using hbeq
        have hknd : kv0.1 ∉ dkeys tl := by
          have : (kv0.1 :: dkeys tl).Nodup := by simpa [dkeys] using hnd
          exact (List.nodup_cons.mp this).1
        apply hknd
        rw [h1]
        unfold dkeys
        exact List.mem_map_of_mem _ htl
      unfold dlookup
      rw [@List.find?_cons_of_neg _ (fun kv => kv.1 == k) kv0 _ hk0]
      have hnd' : (dkeys tl).Nodup := by
        have : (kv0.1 :: dkeys tl).Nodup := by simpa [dkeys] using hnd
        exact (List.nodup_cons.mp this).2
      exact ih hnd' htl

/-- In a dict with unique keys all of whose values sit under their own id,
every value of the dict is recovered by looking up its id. -/
theorem dlookup_of_mem_values (d : List (String × Event)) (e : Event)
    (hid : ∀ kv ∈ d, kv.2.id = kv.1) (hnd : (dkeys d).Nodup)
    (he : e ∈ d.map Prod.snd) : dlookup d e.id = some e := by
  obtain ⟨kv, hkv, rfl⟩ := List.mem_map.mp he
  rw [hid kv hkv]
  exact dlookup_of_mem_nodup d _ _ hnd (by simpa using hkv)

/-! ### The timestamp order -/

theorem listLe_total (a : List Char) : ∀ b, listLe a b = true ∨ listLe b a = true := by
  induction a with
  | nil => intro b; exact Or.inl rfl
  | cons x xs ih =>
    intro b
    cases b with
    | nil => exact Or.inr rfl
    | cons y ys =>
      by_cases h1 : x.toNat < y.toNat
      · left
        simp [listLe, h1]
      · by_cases h2 : x.toNat = y.toNat
        · rcases ih ys with h | h
          · left
            simp [listLe, h1, h2, h]
          · right
            have hy1 : ¬y.toNat < x.toNat := by omega
            simp [listLe, hy1, h2.symm, h]
        · right
          have : y.toNat < x.toNat := by omega
          simp [listLe, this]

theorem listLe_trans (a : List Char) :
    ∀ b c, listLe a b = true → listLe b c = true → listLe a c = true := by
  induction a with
  | nil => intro b c _ _; rfl
  | cons x xs ih =>
    intro b c hab hbc
    cases b with
    | nil => simp [listLe] at hab
    | cons y ys =>
      cases c with
      | nil => simp [listLe] at hbc
      | cons z zs =>
        by_cases hxy : x.toNat < y.toNat
        · by_cases hyz : y.toNat < z.toNat
          · have hxz : x.toNat < z.toNat := by omega
            simp [listLe, hxz]
          · by_cases hyz2 : y.toNat = z.toNat
            · have hxz : x.toNat < z.toNat := by omega
              simp [listLe, hxz]
            · simp [listLe, hyz, hyz2] at hbc
        · by_cases hxy2 : x.toNat = y.toNat
          · have hab' : listLe xs ys = true := by
              simpa [listLe, hxy, hxy2] using hab
            by_cases hyz : y.toNat < z.toNat
            · have hxz : x.toNat < z.toNat := by omega
              simp [listLe, hxz]
            · by_cases hyz2 : y.toNat = z.toNat
              · have hbc' : listLe ys zs = true := by
                  simpa [listLe, hyz, hyz2] using hbc
                have hxz2 : x.toNat = z.toNat := by omega
                have hxz : ¬x.toNat < z.toNat := by omega
                simp [listLe, hxz, hxz2, ih ys zs hab' hbc']
              · simp [listLe, hyz, hyz2] at hbc
          · simp [listLe, hxy, hxy2] at hab

theorem strLe_total (a b : String) : strLe a b = true ∨ strLe b a = true :=
  listLe_total a.data b.data

theorem strLe_trans (a b c : String) (hab : strLe a b = true)
    (hbc : strLe b c = true) : strLe a c = true :=
  listLe_trans a.data b.data c.data hab hbc

theorem tsDesc_total : IsTotal Event tsDesc :=
  ⟨fun a b => strLe_total b.timestamp a.timestamp⟩

theorem tsDesc_trans : IsTrans Event tsDesc :=
  ⟨fun _ _ _ hab hbc => strLe_trans _ _ _ hbc hab⟩

/-! ### The pipeline (claims C2, C3, C4, C5, C9) -/

theorem allEventsSorted_pairwise (ne ex : List Event) :
    List.Pairwise tsDesc (allEventsSorted ne ex) := by
  haveI := tsDesc_total
  haveI := tsDesc_trans
  exact List.sorted_insertionSort tsDesc _

theorem mem_allEventsSorted (ne ex : List Event) (e : Event)
    (h : e ∈ allEventsSorted ne ex) : e ∈ (mergedDict ne ex).map Prod.snd :=
  (List.perm_insertionSort tsDesc _).subset h

theorem setBreaking_frame (cut : String) (e : Event) :
    (setBreaking cut e).id = e.id ∧ (setBreaking cut e).title = e.title ∧
    (setBreaking cut e).source = e.source ∧ (setBreaking cut e).url = e.url ∧
    (setBreaking cut e).description = e.description ∧
    (setBreaking cut e).timestamp = e.timestamp ∧
    (setBreaking cut e).severity = e.severity ∧
    (setBreaking cut e).cost_usd = e.cost_usd ∧
    (setBreaking cut e).cost_label = e.cost_label ∧
    (setBreaking cut e).is_new = e.is_new := by
  unfold setBreaking
  exact ⟨rfl, rfl, rfl, rfl, rfl, rfl, rfl, rfl, rfl, rfl⟩

/-- Unpack membership in the final collection: the event is
`setBreaking` of a merged-dict value that passed the retention filter. -/
theorem mem_finalEvents (ne ex : List Event) (nowR nowA : DateTime) (e : Event)
    (he : e ∈ finalEvents ne ex nowR nowA) :
    ∃ e', e' ∈ (mergedDict ne ex).map Prod.snd ∧
      e = setBreaking (alertCutoff nowA) e' ∧
      strLe (recentCutoff nowR) e'.timestamp = true := by
  unfold finalEvents at he
  obtain ⟨e', he', rfl⟩ := List.mem_map.mp he
  unfold retainedEvents at he'
  have h1 : e' ∈ (allEventsSorted ne ex).filter
      (fun ev => strLe (recentCutoff nowR) ev.timestamp) :=
    List.take_subset _ _ he'
  exact ⟨e', mem_allEventsSorted ne ex e' (List.mem_filter.mp h1).1, rfl,
    (List.mem_filter.mp h1).2⟩

/-- C2: every id of a new candidate appears in the merged dict (source
lines 167-168), bound to a new candidate's record with that id — the new
data overrides whatever the prior collection stored under the id. -/
theorem merge_new_precedence (ne ex : List Event) (i : String)
    (h : ∃ e ∈ ne, e.id = i) :
    ∃ v ∈ ne, v.id = i ∧
      dlookup (newDict ne) i = some v ∧
      dlookup (mergedDict ne ex) i = some v ∧
      v ∈ (mergedDict ne ex).map Prod.snd := by
  have hmem : dmem (newDict ne) i = true := by
    rw [newDict, dmem_dictOfEvents, List.any_eq_true]
    obtain ⟨e, he, hid⟩ := h
    exact ⟨e, he, by simpa using hid⟩
  have hex : ∃ kv ∈ newDict ne, (kv.1 == i) = true := by
    simpa [dmem, List.any_eq_true] using hmem
  have hsome := List.find?_isSome.mpr hex
  obtain ⟨kv, hkv⟩ := Option.isSome_iff_exists.mp hsome
  have hlook : dlookup (newDict ne) i = some kv.2 := by
    unfold dlookup
    rw [hkv]
  have hv := dlookup_dictOfEvents ne i kv.2 hlook
  have hmerged := dlookup_mergedDict_new ne ex i kv.2 hlook
  exact ⟨kv.2, hv.1, hv.2, hlook, hmerged, dlookup_mem_values _ _ _ hmerged⟩

/-- Witness for C2 on the sample run. -/
theorem merge_new_precedence_witness :
    ∃ v ∈ [wNew], v.id = "aaa" ∧
      dlookup (newDict [wNew]) "aaa" = some v ∧
      dlookup (mergedDict [wNew] [wOld, wKeep]) "aaa" = some v ∧
      v ∈ (mergedDict [wNew] [wOld, wKeep]).map Prod.snd :=
  merge_new_precedence [wNew] [wOld, wKeep] "aaa"
    ⟨wNew, List.mem_cons_self _ _, by decide⟩

/-- C3: every event of the final collection passes the 72-hour retention
filter measured from the run's current time (the timestamp is at or after
`recentCutoff`), and consequently any prior event whose timestamp has
fallen outside the window — even one carried forward unchanged — has no
trace in the final collection. -/
theorem retention_spec (ne ex : List Event) (nowR nowA : DateTime) :
    (∀ e ∈ finalEvents ne ex nowR nowA,
      strLe (recentCutoff nowR) e.timestamp = true) ∧
    (∀ p ∈ ex, strLe (recentCutoff nowR) p.timestamp = false →
      ∀ e ∈ finalEvents ne ex nowR nowA,
        ¬(e.id = p.id ∧ e.timestamp = p.timestamp)) := by
  have hmain : ∀ e ∈ finalEvents ne ex nowR nowA,
      strLe (recentCutoff nowR) e.timestamp = true := by
    intro e he
    obtain ⟨e', _, rfl, hfil⟩ := mem_finalEvents ne ex nowR nowA e he
    rw [(setBreaking_frame _ e').2.2.2.2.2.1]
    exact hfil
  refine ⟨hmain, ?_⟩
  intro p _ hout e he hc
  have hts := hmain e he
  rw [hc.2, hout] at hts
  exact Bool.false_ne_true hts

/-- Witness for C3 on the sample run: the fresh event is retained with a
timestamp inside the window; the week-old prior event matches nothing in
the final collection. -/
theorem retention_spec_witness :
    strLe (recentCutoff wNow)
      (setBreaking (alertCutoff wNow) wNew).timestamp = true ∧
    ¬((setBreaking (alertCutoff wNow) wNew).id = wOld.id ∧
      (setBreaking (alertCutoff wNow) wNew).timestamp = wOld.timestamp) :=
  ⟨(retention_spec [wNew] [wOld, wKeep] wNow wNow).1 _ (by decide),
   (retention_spec [wNew] [wOld, wKeep] wNow wNow).2 wOld
     (by decide) (by decide) _ (by decide)⟩

/-- C4: the final collection holds at most 200 events, is sorted by
timestamp descending, and the events cut off by the `[:200]` truncation
are all no newer than any kept event (the kept ones are the 200 most
recent); no truncation happens when at most 200 events survive the
retention filter. -/
theorem cap_spec (ne ex : List Event) (nowR nowA : DateTime) :
    (finalEvents ne ex nowR nowA).length ≤ 200 ∧
    List.Pairwise (fun a b => strLe b.timestamp a.timestamp = true)
      (finalEvents ne ex nowR nowA) ∧
    (∀ e ∈ finalEvents ne ex nowR nowA, ∀ d ∈ droppedByCap ne ex nowR,
      strLe d.timestamp e.timestamp = true) ∧
    (((allEventsSorted ne ex).filter
        (fun e => strLe (recentCutoff nowR) e.timestamp)).length ≤ 200 →
      droppedByCap ne ex nowR = []) := by
  have hfilpw : List.Pairwise tsDesc ((allEventsSorted ne ex).filter
      (fun e => strLe (recentCutoff nowR) e.timestamp)) :=
    List.Pairwise.sublist (List.filter_sublist _) (allEventsSorted_pairwise ne ex)
  refine ⟨?_, ?_, ?_, ?_⟩
  · unfold finalEvents retainedEvents
    rw [List.length_map]
    exact (List.length_take_le _ _)
  · unfold finalEvents
    rw [List.pairwise_map]
    have hretpw : List.Pairwise tsDesc (retainedEvents ne ex nowR) := by
      unfold retainedEvents
      exact List.Pairwise.sublist (List.take_sublist _ _) hfilpw
    apply hretpw.imp
    intro a b hab
    rw [(setBreaking_frame _ a).2.2.2.2.2.1,
      (setBreaking_frame _ b).2.2.2.2.2.1]
    exact hab
  · intro e he d hd
    obtain ⟨e', he', rfl⟩ := List.mem_map.mp he
    have hsplit := List.take_append_drop 200 ((allEventsSorted ne ex).filter
      (fun e => strLe (recentCutoff nowR) e.timestamp))
    have hpw : List.Pairwise tsDesc
        (retainedEvents ne ex nowR ++ droppedByCap ne ex nowR) := by
      unfold retainedEvents droppedByCap
      rw [hsplit]
      exact hfilpw
    have := (List.pairwise_append.mp hpw).2.2 e' he' d hd
    rw [(setBreaking_frame _ e').2.2.2.2.2.1]
    exact this
  · intro hlen
    unfold droppedByCap
    exact List.drop_eq_nil_of_le hlen

/-- Witness for C4 on the sample run (the filter passes 2 events, so the
cap drops nothing). -/
theorem cap_spec_witness :
    (finalEvents [wNew] [wOld, wKeep] wNow wNow).length ≤ 200 ∧
    List.Pairwise (fun a b => strLe b.timestamp a.timestamp = true)
      (finalEvents [wNew] [wOld, wKeep] wNow wNow) ∧
    droppedByCap [wNew] [wOld, wKeep] wNow = [] :=
  ⟨(cap_spec [wNew] [wOld, wKeep] wNow wNow).1,
   (cap_spec [wNew] [wOld, wKeep] wNow wNow).2.1,
   (cap_spec [wNew] [wOld, wKeep] wNow wNow).2.2.2 (by decide)⟩

/-- C5: on the final collection, `is_breaking` is freshly assigned —
overwriting any stored value — to the conjunction "timestamp at or after
`alertCutoff` (3 h before the run time) and severity high"; in
particular it is `some true` iff severity is `"high"` and the timestamp is
within the breaking window. -/
theorem breaking_spec (ne ex : List Event) (nowR nowA : DateTime) :
    ∀ e ∈ finalEvents ne ex nowR nowA,
      e.is_breaking =
        some (strLe (alertCutoff nowA) e.timestamp && (e.severity == "high")) ∧
      (e.is_breaking = some true ↔
        (e.severity = "high" ∧ strLe (alertCutoff nowA) e.timestamp = true)) := by
  intro e he
  obtain ⟨e', _, rfl, _⟩ := mem_finalEvents ne ex nowR nowA e he
  refine ⟨rfl, ?_⟩
  show (setBreaking (alertCutoff nowA) e').is_breaking = some true ↔ _
  unfold setBreaking
  simp only [Option.some.injEq, Bool.and_eq_true, beq_iff_eq]
  constructor
  · rintro ⟨h1, h2⟩
    exact ⟨h2, h1⟩
  · rintro ⟨h1, h2⟩
    exact ⟨h2, h1⟩

/-- Witness for C5 on the sample run: the fresh high-severity event inside
the 3 h window gets `is_breaking = some true`; the carried-forward event
has its stale stored `true` overwritten with `false`. -/
theorem breaking_spec_witness :
    (setBreaking (alertCutoff wNow) wNew).is_breaking = some true ∧
    (setBreaking (alertCutoff wNow) wKeep).is_breaking = some false :=
  ⟨((breaking_spec [wNew] [wOld, wKeep] wNow wNow _ (by decide)).2).mpr
      ⟨by decide, by decide⟩,
   by
    have := (breaking_spec [wNew] [wOld, wKeep] wNow wNow
      (setBreaking (alertCutoff wNow) wKeep) (by decide)).1
    rw [this]
    decide⟩

/-- C9: a prior event whose id no new candidate carries, and which
survives the retention filter and cap, appears in the final collection
with every field except `is_breaking` exactly as stored — in particular
`is_new` keeps its stored value and is not recomputed at merge time. -/
theorem carried_forward_spec (ne ex : List Event) (nowR nowA : DateTime)
    (i : String) (p : Event)
    (hex : dlookup (dictOfEvents ex) i = some p)
    (hni : ∀ e ∈ ne, e.id ≠ i) :
    ∀ e ∈ finalEvents ne ex nowR nowA, e.id = i →
      e.title = p.title ∧ e.source = p.source ∧ e.url = p.url ∧
      e.description = p.description ∧ e.timestamp = p.timestamp ∧
      e.severity = p.severity ∧ e.cost_usd = p.cost_usd ∧
      e.cost_label = p.cost_label ∧ e.is_new = p.is_new := by
  intro e he hid
  obtain ⟨e', hmem, rfl, _⟩ := mem_finalEvents ne ex nowR nowA e he
  have hid' : e'.id = i := by
    rw [← (setBreaking_frame (alertCutoff nowA) e').1]
    exact hid
  have hlook : dlookup (mergedDict ne ex) e'.id = some e' :=
    dlookup_of_mem_values _ _ (pairsId_mergedDict ne ex)
      (nodup_dkeys_mergedDict ne ex) hmem
  rw [hid'] at hlook
  have hold : dlookup (mergedDict ne ex) i = some p := by
    rw [dlookup_mergedDict_old ne ex i hni]
    exact hex
  have heq : e' = p := by
    rw [hlook] at hold
    injection hold
  subst heq
  have hf := setBreaking_frame (alertCutoff nowA) e'
  exact ⟨hf.2.1, hf.2.2.1, hf.2.2.2.1, hf.2.2.2.2.1, hf.2.2.2.2.2.1,
    hf.2.2.2.2.2.2.1, hf.2.2.2.2.2.2.2.1, hf.2.2.2.2.2.2.2.2.1,
    hf.2.2.2.2.2.2.2.2.2⟩

/-- Witness for C9 on the sample run: the carried-forward event keeps
title, source, url, description, timestamp, severity, cost and `is_new`
exactly as stored. -/
theorem carried_forward_spec_witness :
    (setBreaking (alertCutoff wNow) wKeep).title = wKeep.title ∧
    (setBreaking (alertCutoff wNow) wKeep).source = wKeep.source ∧
    (setBreaking (alertCutoff wNow) wKeep).url = wKeep.url ∧
    (setBreaking (alertCutoff wNow) wKeep).description = wKeep.description ∧
    (setBreaking (alertCutoff wNow) wKeep).timestamp = wKeep.timestamp ∧
    (setBreaking (alertCutoff wNow) wKeep).severity = wKeep.severity ∧
    (setBreaking (alertCutoff wNow) wKeep).cost_usd = wKeep.cost_usd ∧
    (setBreaking (alertCutoff wNow) wKeep).cost_label = wKeep.cost_label ∧
    (setBreaking (alertCutoff wNow) wKeep).is_new = wKeep.is_new :=
  carried_forward_spec [wNew] [wOld, wKeep] wNow wNow "bbb" wKeep
    (by decide) (by decide) _ (by decide) (by decide)

/-! ### The daily-cost summary (claim C7) -/

/-- C7 fails on the code: `replace(hour=0, minute=0, second=0)` at source
lines 185-186 does not zero the microseconds, so the summation threshold
is 00:00:00.500000 of the run's day (for a run instant with microsecond
500000), not 00:00 UTC.  An event timestamped exactly 00:00:00 UTC of the
run's calendar day is therefore excluded from `today_cost` (sum 0)
although the claimed threshold includes it (sum 5). -/
theorem today_cost_microsecond_bug :
    today_cost [wMidnight] wNowMicro = 0 ∧
    today_cost_specified [wMidnight] wNowMicro = 5 ∧
    dayStartCut wNowMicro = "2026-10-12T00:00:00.500000+00:00" :=
  ⟨by decide, by decide, by decide⟩

/-! ### Timestamp parsing (claim C10) -/

/-- C10: whenever the (stripped) published string parses under one of the
four known formats, `parse_date` returns exactly the parsed wall-clock
fields re-stamped as UTC — so the returned instant exceeds the instant the
source stated by exactly the stated offset, instead of the offset being
converted away; and whenever no format matches, `parse_date` returns the
current instant. -/
theorem parse_date_spec (s : String) (now : DateTime) :
    (∀ dt off, strptimeAny (pstrip s.data) = some (dt, off) →
      parse_date s now = dt ∧
      (toEpochMicro (parse_date s now) : Int) = statedEpoch dt off + off) ∧
    (strptimeAny (pstrip s.data) = none → parse_date s now = now) := by
  constructor
  · intro dt off h
    have h1 : parse_date s now = dt := by
      unfold parse_date
      rw [h]
    refine ⟨h1, ?_⟩
    rw [h1]
    unfold statedEpoch
    ring
  · intro h
    unfold parse_date
    rw [h]

/-- Witness for C10: an RFC-822 string bearing a +05:30 offset parses to
its wall-clock fields stamped UTC — an instant 5 h 30 min later than the
one the source stated — and a non-matching string yields the current
instant. -/
theorem parse_date_spec_witness :
    parse_date "Sun, 12 Oct 2026 10:00:00 +0530" wNow =
      ⟨2026, 10, 12, 10, 0, 0, 0⟩ ∧
    (toEpochMicro (parse_date "Sun, 12 Oct 2026 10:00:00 +0530" wNow) : Int) =
      statedEpoch ⟨2026, 10, 12, 10, 0, 0, 0⟩ 19800000000 + 19800000000 ∧
    parse_date "no date here" wNow = wNow :=
  ⟨((parse_date_spec "Sun, 12 Oct 2026 10:00:00 +0530" wNow).1
      ⟨2026, 10, 12, 10, 0, 0, 0⟩ 19800000000 (by decide)).1,
   ((parse_date_spec "Sun, 12 Oct 2026 10:00:00 +0530" wNow).1
      ⟨2026, 10, 12, 10, 0, 0, 0⟩ 19800000000 (by decide)).2,
   (parse_date_spec "no date here" wNow).2 (by decide)⟩

end DebtOfWar
